import Mathlib

/-!
Verification of pagmo's thread-safe random device (`include/pagmo/rng.hpp`).

The source defines `pagmo::random_device`, a static singleton wrapping a
`std::mt19937` engine (`detail::random_engine_type`) behind a mutex:
`next()` locks the mutex and returns `static_cast<unsigned int>(m_e())`;
`set_seed(seed)` locks the mutex and calls
`m_e.seed(static_cast<result_type>(seed))`; the static engine `m_e` is
constructed once, before first use, from a value drawn from
`std::random_device`.

Machine integers are modelled as `Nat` with explicit `% 2 ^ 32` where
overflow matters.  The engine state is the list of the 624 most recent
32-bit words of the Mersenne-Twister recurrence, oldest first, as in the
C++ standard's description of `mersenne_twister_engine`.  Since each
`next()`/`set_seed()` body runs entirely under `std::lock_guard` on the
single shared mutex, concurrent executions are serialized; schedules of
interleaved calls are modelled as lists of atomic operations.
-/

namespace PagmoRng

/-- Modelled from the spec: the per-word tempering transform of the 32-bit
Mersenne Twister (the implementation of `std::mt19937` is not part of the
repository; the spec pins the algorithm as the "32-bit Mersenne Twister by
Matsumoto and Nishimura, 1998").  Parameters u=11, d=0xFFFFFFFF, s=7,
b=0x9D2C5680, t=15, c=0xEFC60000, l=18. -/
def mtTemper (y : Nat) : Nat :=
  let y1 := y ^^^ ((y >>> 11) &&& 0xFFFFFFFF)
  let y2 := y1 ^^^ ((y1 <<< 7) &&& 0x9D2C5680)
  let y3 := y2 ^^^ ((y2 <<< 15) &&& 0xEFC60000)
  y3 ^^^ (y3 >>> 18)

/-- Modelled from the spec: the Mersenne-Twister word recurrence.  From
words x_{i-624} (`x0`), x_{i-623} (`x1`) and x_{i-227} (`xm`), form
y from the top bit of `x0` and the low 31 bits of `x1`, and produce
x_i = xm xor (y >> 1) xor (0x9908B0DF * (y mod 2)).  Parameters n=624,
m=397, r=31, a=0x9908B0DF. -/
def twistWord (x0 x1 xm : Nat) : Nat :=
  let y := (x0 &&& 0x80000000) ||| (x1 &&& 0x7FFFFFFF)
  xm ^^^ (y >>> 1) ^^^ (0x9908B0DF * (y % 2))

/-- Modelled from the spec: the seeding loop of `std::mt19937::seed`,
producing `c` successive state words starting from word `x` at position
`i`; the next word is (1812433253 * (x xor (x >> 30)) + (i+1)) mod 2^32. -/
def seedLoop (x i : Nat) : Nat → List Nat
  | 0 => []
  | c + 1 => x :: seedLoop ((1812433253 * (x ^^^ (x >>> 30)) + (i + 1)) % 2 ^ 32) (i + 1) c

/-- Modelled from the spec: the full engine state produced by
`std::mt19937::seed(seed)`: 624 words, word 0 being `seed mod 2^32`. -/
def mtSeedWords (seed : Nat) : List Nat :=
  seedLoop (seed % 2 ^ 32) 0 624

/-- Modelled from the spec: one invocation of `std::mt19937::operator()`
on state window `st` = [x_{i-624}, ..., x_{i-1}]: compute the new word
x_i by the twist recurrence, slide the window, and output the tempered
new word. -/
def mtStep (st : List Nat) : Nat × List Nat :=
  let xn := twistWord (st.getD 0 0) (st.getD 1 0) (st.getD 397 0)
  (mtTemper xn, st.tail ++ [xn])

namespace random_device

/-- Translated from `random_device::next` (src/include/pagmo/rng.hpp,
lines 94-98): under the lock, `return static_cast<unsigned int>(m_e());`.
The cast to the 32-bit `unsigned int` is the explicit `% 2 ^ 32`.
Returns the value together with the updated engine state. -/
def next (st : List Nat) : Nat × List Nat :=
  ((mtStep st).1 % 2 ^ 32, (mtStep st).2)

/-- Translated from `random_device::set_seed` (src/include/pagmo/rng.hpp,
lines 107-111): under the lock, `m_e.seed(static_cast<result_type>(seed));`.
The previous engine state `_st` is discarded entirely. -/
def set_seed (_st : List Nat) (seed : Nat) : List Nat :=
  mtSeedWords seed

end random_device

/-- Translated from the static initializer of `random_device_statics::m_e`
(src/include/pagmo/rng.hpp, lines 51-52): the engine is constructed once
from a value `e` drawn from `std::random_device`; per the C++ standard the
single-value engine constructor produces the same state as `seed(e)`. -/
def implicitInit (e : Nat) : List Nat :=
  mtSeedWords e

/-- Drawing `n` successive values via `random_device.next` starting from
engine state `st`: the list of returned values in draw order, together
with the final engine state. -/
def deviceRun : List Nat → Nat → List Nat × List Nat
  | st, 0 => ([], st)
  | st, n + 1 =>
    let r := random_device.next st
    let rest := deviceRun r.2 n
    (r.1 :: rest.1, rest.2)

/-- Well-formedness of an engine state: every stored word is a 32-bit
value. -/
def stValid (st : List Nat) : Prop :=
  ∀ x ∈ st, x < 2 ^ 32

instance (st : List Nat) : Decidable (stValid st) :=
  inferInstanceAs (Decidable (∀ x ∈ st, x < 2 ^ 32))

/-- Modelled from the spec: the reference MT19937 seeding recurrence of
Matsumoto and Nishimura: x_0 = seed mod 2^32,
x_i = (1812433253 * (x_{i-1} xor (x_{i-1} >> 30)) + i) mod 2^32. -/
def mtRefInit (seed : Nat) : Nat → Nat
  | 0 => seed % 2 ^ 32
  | i + 1 =>
    let p := mtRefInit seed i
    (1812433253 * (p ^^^ (p >>> 30)) + (i + 1)) % 2 ^ 32

/-- Modelled from the spec: the infinite word sequence of the reference
MT19937: the first 624 words come from the seeding recurrence, and every
later word x_i is obtained by the twist from x_{i-624}, x_{i-623} and
x_{i-227}. -/
def mtRefX (seed : Nat) (i : Nat) : Nat :=
  if h : i < 624 then mtRefInit seed i
  else
    twistWord (mtRefX seed (i - 624)) (mtRefX seed (i - 623)) (mtRefX seed (i - 227))
termination_by i
decreasing_by
  all_goals omega

/-- Modelled from the spec: the k-th 32-bit output (0-indexed) of the
reference MT19937 seeded with `seed`: the tempered recurrence word
x_{624+k}. -/
def mtRefOut (seed k : Nat) : Nat :=
  mtTemper (mtRefX seed (624 + k))

/-- Concurrency model: a schedule assigns the `i`-th lock acquisition (in
the total order arbitrated by the mutex) to thread `sched[i]`; the draw
performed under that acquisition is received by that thread.  `perThread`
collects, in order, the values thread `t` receives. -/
def perThread (st : List Nat) {T : Nat} (sched : List (Fin T)) (t : Fin T) : List Nat :=
  (((deviceRun st sched.length).1.zip sched).filter (fun p => p.2 == t)).map Prod.fst

/-! ## Range invariants: every engine word and every output is a 32-bit value -/

theorem shiftr_le (m n : Nat) : m >>> n ≤ m := by
  rw [Nat.shiftRight_eq_div_pow]
  exact Nat.div_le_self _ _

theorem mtTemper_lt {y : Nat} (h : y < 2 ^ 32) : mtTemper y < 2 ^ 32 := by
  have h1 : y ^^^ ((y >>> 11) &&& 0xFFFFFFFF) < 2 ^ 32 :=
    Nat.xor_lt_two_pow h (Nat.and_lt_two_pow _ (by norm_num))
  have h2 : (y ^^^ ((y >>> 11) &&& 0xFFFFFFFF)) ^^^
      (((y ^^^ ((y >>> 11) &&& 0xFFFFFFFF)) <<< 7) &&& 0x9D2C5680) < 2 ^ 32 :=
    Nat.xor_lt_two_pow h1 (Nat.and_lt_two_pow _ (by norm_num))
  have h3 : ((y ^^^ ((y >>> 11) &&& 0xFFFFFFFF)) ^^^
        (((y ^^^ ((y >>> 11) &&& 0xFFFFFFFF)) <<< 7) &&& 0x9D2C5680)) ^^^
      ((((y ^^^ ((y >>> 11) &&& 0xFFFFFFFF)) ^^^
        (((y ^^^ ((y >>> 11) &&& 0xFFFFFFFF)) <<< 7) &&& 0x9D2C5680)) <<< 15) &&& 0xEFC60000) <
      2 ^ 32 :=
    Nat.xor_lt_two_pow h2 (Nat.and_lt_two_pow _ (by norm_num))
  simp only [mtTemper]
  exact Nat.xor_lt_two_pow h3 (Nat.lt_of_le_of_lt (shiftr_le _ _) h3)

theorem twistWord_lt (x0 x1 : Nat) {xm : Nat} (h : xm < 2 ^ 32) :
    twistWord x0 x1 xm < 2 ^ 32 := by
  have hy : (x0 &&& 0x80000000) ||| (x1 &&& 0x7FFFFFFF) < 2 ^ 32 :=
    Nat.or_lt_two_pow (Nat.and_lt_two_pow _ (by norm_num))
      (Nat.and_lt_two_pow _ (by norm_num))
  have h1 : ((x0 &&& 0x80000000) ||| (x1 &&& 0x7FFFFFFF)) >>> 1 < 2 ^ 32 :=
    Nat.lt_of_le_of_lt (shiftr_le _ _) hy
  have h2 : 0x9908B0DF * (((x0 &&& 0x80000000) ||| (x1 &&& 0x7FFFFFFF)) % 2) < 2 ^ 32 := by
    have hm : ((x0 &&& 0x80000000) ||| (x1 &&& 0x7FFFFFFF)) % 2 ≤ 1 :=
      Nat.le_of_lt_succ (Nat.mod_lt _ (by norm_num))
    calc 0x9908B0DF * (((x0 &&& 0x80000000) ||| (x1 &&& 0x7FFFFFFF)) % 2)
        ≤ 0x9908B0DF * 1 := Nat.mul_le_mul_left _ hm
      _ < 2 ^ 32 := by norm_num
  simp only [twistWord]
  exact Nat.xor_lt_two_pow (Nat.xor_lt_two_pow h h1) h2

theorem mtRefInit_lt (seed i : Nat) : mtRefInit seed i < 2 ^ 32 := by
  cases i with
  | zero => exact Nat.mod_lt _ (by norm_num)
  | succ i => exact Nat.mod_lt _ (by norm_num)

theorem mtRefX_lt (seed i : Nat) : mtRefX seed i < 2 ^ 32 := by
  induction i using Nat.strong_induction_on with
  | _ i ih =>
    rw [mtRefX]
    split
    · exact mtRefInit_lt seed i
    · exact twistWord_lt _ _ (ih (i - 227) (by omega))

theorem getD_lt {st : List Nat} (h : stValid st) (k : Nat) : st.getD k 0 < 2 ^ 32 := by
  induction st generalizing k with
  | nil => simp only [List.getD_nil]; exact Nat.pos_pow_of_pos 32 (by norm_num)
  | cons a l ih =>
    cases k with
    | zero => exact h a (List.mem_cons_self a l)
    | succ k => exact ih (fun x hx => h x (List.mem_cons_of_mem _ hx)) k

theorem mtStep_fst_lt {st : List Nat} (h : stValid st) : (mtStep st).1 < 2 ^ 32 :=
  mtTemper_lt (twistWord_lt _ _ (getD_lt h 397))

theorem mtStep_valid {st : List Nat} (h : stValid st) : stValid (mtStep st).2 := by
  intro x hx
  simp only [mtStep] at hx
  rcases List.mem_append.1 hx with h1 | h1
  · exact h x (List.mem_of_mem_tail h1)
  · rcases List.mem_singleton.1 h1 with rfl
    exact twistWord_lt _ _ (getD_lt h 397)

theorem seedLoop_valid {x : Nat} (hx : x < 2 ^ 32) (i : Nat) :
    ∀ c, stValid (seedLoop x i c) := by
  intro c
  induction c generalizing x i with
  | zero => intro y hy; simp [seedLoop] at hy
  | succ c ih =>
    intro y hy
    simp only [seedLoop, List.mem_cons] at hy
    rcases hy with rfl | hy
    · exact hx
    · exact ih (Nat.mod_lt _ (by norm_num)) (i + 1) y hy

theorem mtSeedWords_valid (s : Nat) : stValid (mtSeedWords s) :=
  seedLoop_valid (Nat.mod_lt _ (by norm_num)) 0 624

/-! ## The window engine refines the reference recurrence -/

theorem seedLoop_length (x i : Nat) : ∀ c, (seedLoop x i c).length = c := by
  intro c
  induction c generalizing x i with
  | zero => rfl
  | succ c ih => simp [seedLoop, ih]

theorem mtSeedWords_length (s : Nat) : (mtSeedWords s).length = 624 :=
  seedLoop_length _ 0 624

theorem seedLoop_eq_map (s : Nat) : ∀ (c i : Nat),
    seedLoop (mtRefInit s i) i c = (List.range' i c).map (mtRefInit s) := by
  intro c
  induction c with
  | zero => intro i; rfl
  | succ c ih =>
    intro i
    rw [List.range'_succ]
    simp only [seedLoop, List.map_cons]
    have hnext : (1812433253 * (mtRefInit s i ^^^ (mtRefInit s i >>> 30)) + (i + 1)) % 2 ^ 32 =
        mtRefInit s (i + 1) := by
      simp [mtRefInit]
    rw [hnext, ih (i + 1)]

theorem mtSeedWords_eq (s : Nat) :
    mtSeedWords s = (List.range' 0 624).map (mtRefInit s) := by
  have h0 : s % 2 ^ 32 = mtRefInit s 0 := rfl
  rw [mtSeedWords, h0, seedLoop_eq_map s 624 0]

theorem mtRefX_small {s i : Nat} (h : i < 624) : mtRefX s i = mtRefInit s i := by
  rw [mtRefX]
  exact dif_pos h

theorem mtSeedWords_eq_window (s : Nat) :
    mtSeedWords s = (List.range' 0 624).map (mtRefX s) := by
  rw [mtSeedWords_eq]
  refine (List.map_congr_left ?_).symm
  intro a ha
  have : a < 624 := by
    have := List.mem_range'_1.1 ha
    omega
  exact mtRefX_small this

theorem getD_map_range' (f : Nat → Nat) : ∀ (k j n : Nat), k < n →
    ((List.range' j n).map f).getD k 0 = f (j + k) := by
  intro k
  induction k with
  | zero =>
    intro j n h
    cases n with
    | zero => omega
    | succ n => rw [List.range'_succ]; rfl
  | succ k ih =>
    intro j n h
    cases n with
    | zero => omega
    | succ n =>
      rw [List.range'_succ]
      simp only [List.map_cons, List.getD_cons_succ]
      rw [ih (j + 1) n (by omega)]
      congr 1
      omega

theorem tail_append_map_range' (f : Nat → Nat) (j n : Nat) (hn : 0 < n) :
    ((List.range' j n).map f).tail ++ [f (j + n)] = (List.range' (j + 1) n).map f := by
  cases n with
  | zero => omega
  | succ n =>
    rw [List.range'_succ]
    simp only [List.map_cons, List.tail_cons]
    rw [List.range'_concat]
    simp only [List.map_append, List.map_cons, List.map_nil]
    congr 3
    omega

theorem mtRefX_twist (s j : Nat) :
    mtRefX s (j + 624) = twistWord (mtRefX s j) (mtRefX s (j + 1)) (mtRefX s (j + 397)) := by
  have h1 : j + 624 - 624 = j := by omega
  have h2 : j + 624 - 623 = j + 1 := by omega
  have h3 : j + 624 - 227 = j + 397 := by omega
  conv_lhs => rw [mtRefX]
  rw [dif_neg (show ¬ j + 624 < 624 by omega), h1, h2, h3]

theorem mtStep_window (s j : Nat) :
    mtStep ((List.range' j 624).map (mtRefX s)) =
      (mtTemper (mtRefX s (j + 624)), (List.range' (j + 1) 624).map (mtRefX s)) := by
  simp only [mtStep]
  rw [getD_map_range' _ 0 j 624 (by norm_num), getD_map_range' _ 1 j 624 (by norm_num),
    getD_map_range' _ 397 j 624 (by norm_num), Nat.add_zero, ← mtRefX_twist s j,
    tail_append_map_range' _ j 624 (by norm_num)]

theorem next_window (s j : Nat) :
    random_device.next ((List.range' j 624).map (mtRefX s)) =
      (mtTemper (mtRefX s (j + 624)), (List.range' (j + 1) 624).map (mtRefX s)) := by
  have hlt : mtTemper (mtRefX s (j + 624)) < 2 ^ 32 := mtTemper_lt (mtRefX_lt s (j + 624))
  simp only [random_device.next, mtStep_window s j]
  exact congrArg (fun v => (v, _)) (Nat.mod_eq_of_lt hlt)

theorem deviceRun_window (s : Nat) : ∀ (n j : Nat),
    deviceRun ((List.range' j 624).map (mtRefX s)) n =
      ((List.range' (j + 624) n).map fun i => mtTemper (mtRefX s i),
        (List.range' (j + n) 624).map (mtRefX s)) := by
  intro n
  induction n with
  | zero => intro j; simp [deviceRun]
  | succ n ih =>
    intro j
    simp only [deviceRun, next_window s j, ih (j + 1)]
    have e1 : j + 1 + 624 = j + 624 + 1 := by omega
    have e2 : j + 1 + n = j + (n + 1) := by omega
    have hout : (List.range' (j + 624) (n + 1)).map (fun i => mtTemper (mtRefX s i)) =
        mtTemper (mtRefX s (j + 624)) ::
          (List.range' (j + 624 + 1) n).map (fun i => mtTemper (mtRefX s i)) := by
      rw [List.range'_succ, List.map_cons]
    rw [e1, e2, hout]

theorem deviceRun_length : ∀ (n : Nat) (st : List Nat), (deviceRun st n).1.length = n := by
  intro n
  induction n with
  | zero => intro st; rfl
  | succ n ih => intro st; simp [deviceRun, ih]

/-! ## Schedules: serialized concurrent access -/

theorem sum_count_eq_length {T : Nat} (l : List (Fin T)) :
    (∑ t : Fin T, l.count t) = l.length := by
  induction l with
  | nil => simp only [List.count_nil, Finset.sum_const_zero, List.length_nil]
  | cons a l ih =>
    have hc : ∀ t : Fin T, (a :: l).count t = l.count t + if a = t then 1 else 0 := by
      intro t
      rw [List.count_cons]
      simp only [beq_iff_eq]
    simp only [hc]
    rw [Finset.sum_add_distrib, ih, Fintype.sum_ite_eq a fun _ => 1, List.length_cons]

theorem sum_filter_snd {T : Nat} (l : List (Nat × Fin T)) :
    (∑ t : Fin T, (((l.filter fun p => p.2 == t).map Prod.fst : List Nat) : Multiset Nat)) =
      ((l.map Prod.fst : List Nat) : Multiset Nat) := by
  induction l with
  | nil => simp
  | cons a l ih =>
    have hterm : ∀ t : Fin T,
        ((((a :: l).filter fun p => p.2 == t).map Prod.fst : List Nat) : Multiset Nat) =
          (if a.2 = t then ({a.1} : Multiset Nat) else 0) +
            (((l.filter fun p => p.2 == t).map Prod.fst : List Nat) : Multiset Nat) := by
      intro t
      rw [List.filter_cons]
      by_cases hat : a.2 = t
      · simp [hat]
      · simp [hat]
    simp only [hterm]
    rw [Finset.sum_add_distrib, ih, Fintype.sum_ite_eq a.2 fun _ => ({a.1} : Multiset Nat)]
    simp [Multiset.singleton_add]

/-! ## Claims -/

set_option maxRecDepth 1000000 in
/-- C1: for every 32-bit seed `s` and every count `n`, calling `set_seed(s)`
and then drawing `n` values via `next()` sequentially yields exactly the
first `n` 32-bit outputs of the reference MT19937 seeded with `s`,
whatever the prior engine state, so the procedure always reproduces the
same `n`-value sequence; in particular after `set_seed(42)` the first
three `next()` values are the fixed triplet
(1608637542, 3421126067, 4083286876). -/
theorem c1_reseed_draws_match_reference_mt19937 :
    (∀ (st : List Nat) (s n : Nat),
        (deviceRun (random_device.set_seed st s) n).1 = (List.range n).map (mtRefOut s)) ∧
      (deviceRun (random_device.set_seed (List.replicate 624 0) 42) 3).1 =
        [1608637542, 3421126067, 4083286876] := by
  constructor
  · intro st s n
    show (deviceRun (mtSeedWords s) n).1 = (List.range n).map (mtRefOut s)
    rw [mtSeedWords_eq_window s, deviceRun_window s n 0]
    show (List.range' (0 + 624) n).map (fun i => mtTemper (mtRefX s i)) =
      (List.range n).map (mtRefOut s)
    rw [Nat.zero_add, List.range'_eq_map_range, List.map_map]
    rfl
  · decide

/-- C2: for every seed `s` and count `k`, the sequence of `k` draws after
`set_seed(s)` is identical to the sequence of `k` draws after a second
`set_seed(s)` issued from the state reached by the first run, and more
generally the sequence after `set_seed(s)` does not depend on the engine
state before the reseed. -/
theorem c2_reseed_reproduces_sequence (st1 st2 : List Nat) (s k : Nat) :
    (deviceRun (random_device.set_seed
        ((deviceRun (random_device.set_seed st1 s) k).2) s) k).1 =
      (deviceRun (random_device.set_seed st1 s) k).1 ∧
    (deviceRun (random_device.set_seed st1 s) k).1 =
      (deviceRun (random_device.set_seed st2 s) k).1 :=
  ⟨rfl, rfl⟩

/-- C3: `set_seed(s)` leaves the engine in the MT19937 initialization state
for `s` alone, fully overwriting the previous state, so all future
behaviour after `set_seed(s)` depends only on `s` and not on earlier
calls. -/
theorem c3_set_seed_state_function_of_seed_only (st1 st2 : List Nat) (s : Nat) :
    random_device.set_seed st1 s = mtSeedWords s ∧
      random_device.set_seed st1 s = random_device.set_seed st2 s ∧
      ∀ n, deviceRun (random_device.set_seed st1 s) n =
        deviceRun (random_device.set_seed st2 s) n :=
  ⟨rfl, rfl, fun _ => rfl⟩

/-- C4: with every `next()` executed atomically under the exclusive lock,
any interleaving of `T` threads performing `C` calls each is a schedule of
`T * C` serialized engine steps: the total number of draws is exactly
`T * C`, and the multiset of all values received across threads equals the
multiset of a single-threaded run of the same length from the same
starting state. -/
theorem c4_concurrent_draws_serialize {T C : Nat} (sched : List (Fin T))
    (st : List Nat) (h : ∀ t : Fin T, sched.count t = C) :
    sched.length = T * C ∧
      (∑ t : Fin T, ((perThread st sched t : List Nat) : Multiset Nat)) =
        ((deviceRun st sched.length).1 : Multiset Nat) := by
  constructor
  · rw [← sum_count_eq_length sched]
    simp only [h]
    simp [Finset.sum_const, Finset.card_univ, Fintype.card_fin, smul_eq_mul]
  · simp only [perThread]
    rw [sum_filter_snd,
      List.map_fst_zip _ _ (le_of_eq (deviceRun_length sched.length st))]

set_option maxRecDepth 1000000 in
/-- Witness for C4: two threads, two calls each, schedule 0,1,1,0. -/
theorem c4_concurrent_draws_serialize_witness :
    (∀ t : Fin 2, ([0, 1, 1, 0] : List (Fin 2)).count t = 2) ∧
      (([0, 1, 1, 0] : List (Fin 2)).length = 2 * 2 ∧
        (∑ t : Fin 2, ((perThread (List.replicate 624 0)
            ([0, 1, 1, 0] : List (Fin 2)) t : List Nat) : Multiset Nat)) =
          ((deviceRun (List.replicate 624 0)
            ([0, 1, 1, 0] : List (Fin 2)).length).1 : Multiset Nat)) :=
  ⟨by decide, c4_concurrent_draws_serialize ([0, 1, 1, 0] : List (Fin 2))
    (List.replicate 624 0) (by decide)⟩

/-- C5: whatever 32-bit value `e` the entropy source `std::random_device`
yields, the implicitly seeded engine has a well-defined state (624 valid
32-bit words), and the first `next()` on it returns a valid 32-bit
value. -/
theorem c5_implicit_entropy_seeding_well_defined (e : Nat) (_h : e < 2 ^ 32) :
    stValid (implicitInit e) ∧ (implicitInit e).length = 624 ∧
      (random_device.next (implicitInit e)).1 < 2 ^ 32 :=
  ⟨mtSeedWords_valid e, mtSeedWords_length e, Nat.mod_lt _ (by norm_num)⟩

/-- Witness for C5: a concrete entropy value. -/
theorem c5_implicit_entropy_seeding_well_defined_witness :
    (123456789 : Nat) < 2 ^ 32 ∧
      (stValid (implicitInit 123456789) ∧ (implicitInit 123456789).length = 624 ∧
        (random_device.next (implicitInit 123456789)).1 < 2 ^ 32) :=
  ⟨by norm_num, c5_implicit_entropy_seeding_well_defined 123456789 (by norm_num)⟩

/-- C6: both operations are total over their whole input domain: from any
well-formed engine state, `next()` returns a 32-bit value and leaves a
well-formed state, and `set_seed` accepts every seed — including zero —
always producing a well-formed state; no error outcome exists in the
model. -/
theorem c6_operations_total (st : List Nat) (s : Nat) (h : stValid st) :
    (random_device.next st).1 < 2 ^ 32 ∧ stValid (random_device.next st).2 ∧
      stValid (random_device.set_seed st s) ∧
      stValid (random_device.set_seed st 0) :=
  ⟨Nat.mod_lt _ (by norm_num), mtStep_valid h, mtSeedWords_valid s, mtSeedWords_valid 0⟩

set_option maxRecDepth 1000000 in
/-- Witness for C6: the all-zero engine state and seed 7. -/
theorem c6_operations_total_witness :
    stValid (List.replicate 624 0) ∧
      ((random_device.next (List.replicate 624 0)).1 < 2 ^ 32 ∧
        stValid (random_device.next (List.replicate 624 0)).2 ∧
        stValid (random_device.set_seed (List.replicate 624 0) 7) ∧
        stValid (random_device.set_seed (List.replicate 624 0) 0)) :=
  ⟨by decide, c6_operations_total (List.replicate 624 0) 7 (by decide)⟩

/-- C7: on a well-formed state, the value returned by `next()` is the
engine's 32-bit output unchanged: the `static_cast<unsigned int>`
(the `% 2 ^ 32`) is value-preserving, the result lies in
[0, 2^32 - 1], and the engine advances by exactly one step. -/
theorem c7_next_returns_engine_output_unchanged (st : List Nat) (h : stValid st) :
    (random_device.next st).1 = (mtStep st).1 ∧
      (random_device.next st).2 = (mtStep st).2 ∧
      (random_device.next st).1 < 2 ^ 32 :=
  ⟨Nat.mod_eq_of_lt (mtStep_fst_lt h), rfl, Nat.mod_lt _ (by norm_num)⟩

set_option maxRecDepth 1000000 in
/-- Witness for C7: the engine state seeded with 0 is well formed and the
theorem applies to it. -/
theorem c7_next_returns_engine_output_unchanged_witness :
    stValid (mtSeedWords 0) ∧
      ((random_device.next (mtSeedWords 0)).1 = (mtStep (mtSeedWords 0)).1 ∧
        (random_device.next (mtSeedWords 0)).2 = (mtStep (mtSeedWords 0)).2 ∧
        (random_device.next (mtSeedWords 0)).1 < 2 ^ 32) :=
  ⟨by decide, c7_next_returns_engine_output_unchanged (mtSeedWords 0) (by decide)⟩

/-- C8: the component's only mutable state is the engine state: the state
produced by `set_seed(s)` carries no information from before the call (the
seed is not retained anywhere outside the engine words), and `next()`
changes nothing but the engine window. -/
theorem c8_only_engine_state_mutated (st1 st2 : List Nat) (s : Nat) :
    random_device.set_seed st1 s = random_device.set_seed st2 s ∧
      (random_device.next st1).2 =
        st1.tail ++ [twistWord (st1.getD 0 0) (st1.getD 1 0) (st1.getD 397 0)] :=
  ⟨rfl, rfl⟩

/-- C9: for every 32-bit entropy value `e`, the implicitly seeded initial
engine state is exactly the state `set_seed(v)` would produce for some
32-bit seed `v` (namely `v = e`): every implicitly seeded stream is
reproducible by an explicit seed. -/
theorem c9_implicit_init_equals_some_set_seed (e : Nat) (h : e < 2 ^ 32) :
    ∃ v, v < 2 ^ 32 ∧ ∀ st : List Nat, implicitInit e = random_device.set_seed st v :=
  ⟨e, h, fun _ => rfl⟩

/-- Witness for C9: entropy value 0xDEADBEEF. -/
theorem c9_implicit_init_equals_some_set_seed_witness :
    (3735928559 : Nat) < 2 ^ 32 ∧
      ∃ v, v < 2 ^ 32 ∧
        ∀ st : List Nat, implicitInit 3735928559 = random_device.set_seed st v :=
  ⟨by norm_num, c9_implicit_init_equals_some_set_seed 3735928559 (by norm_num)⟩

/-- C10: `set_seed` obeys last-write-wins absorption: `set_seed(s1)`
immediately followed by `set_seed(s2)` leaves the same state as
`set_seed(s2)` alone, and `set_seed(s)` is idempotent. -/
theorem c10_set_seed_last_write_wins (st : List Nat) (s1 s2 : Nat) :
    random_device.set_seed (random_device.set_seed st s1) s2 =
        random_device.set_seed st s2 ∧
      random_device.set_seed (random_device.set_seed st s1) s1 =
        random_device.set_seed st s1 :=
  ⟨rfl, rfl⟩

end PagmoRng
